import Mathlib

/-!
Verification of the wheel-lacing pattern generator (Schraner pattern).

The definitions below are a shallow embedding of the compute core of the
repository: the validation module (app/compute/validation.py) and the
pattern builder (app/compute/schraner.py).  Python integers are modelled
as Int; Python's floor division and nonnegative-remainder operator for
positive divisors coincide with Int's ediv / emod, written / and %.
Python lists become Lean lists, f-strings become explicit string
concatenation, and a raised ValueError / AssertionError becomes an
Except error with a kind tag.
-/

/-- Error kinds produced by the compute core: the two validation errors
named by the interface contract, plus the internal defensive assertion
in the post-build rim check. -/
inductive ErrKind where
  | invalidHoleCount
  | crossesOutOfRange
  | internalAssertion
  deriving DecidableEq, Repr

/-- Input parameter record (app.models.PatternRequest as consumed by the
compute module; field set taken from its uses in schraner.py). -/
structure PatternRequest where
  holes : Int
  wheelType : String
  crosses : Int
  symmetry : String
  invertHeads : Bool
  startRimHole : Int
  valveReference : String
  startHubHoleDS : Int
  startHubHoleNDS : Int
  deriving DecidableEq, Repr

/-- Output row (app.models.PatternRow; field set taken from its
construction in schraner.py). -/
structure PatternRow where
  spoke : String
  order : Int
  step : String
  side : String
  oddEvenSet : String
  k : Int
  hubHole : Int
  heads : String
  rimHole : Int
  crossesDescribed : String
  notes : String
  deriving DecidableEq, Repr

/-- Derived metadata dictionary of the response. -/
structure Derived where
  H : Int
  spokesPerSide : Int
  spokesPerSet : Int
  deriving DecidableEq, Repr

/-- Output record (app.models.PatternResponse). -/
structure PatternResponse where
  params : PatternRequest
  derived : Derived
  rows : List PatternRow
  deriving DecidableEq, Repr

/-- validation.derive_H: holes // 2. -/
def derive_H (holes : Int) : Int := holes / 2

/-- The fallback ceiling formula math.floor((h - 2) / 2) used by
validate_crosses for hole counts outside the fixed table, with
h = derive_H holes. -/
def fallback_ceiling (holes : Int) : Int := (derive_H holes - 2) / 2

/-- The maximum cross count computed inside validation.validate_crosses:
a fixed table for 20/24/28/32/36 holes, the fallback formula otherwise. -/
def max_crosses (holes : Int) : Int :=
  if holes = 20 then 1
  else if holes = 24 ∨ holes = 28 then 3
  else if holes = 32 ∨ holes = 36 then 4
  else fallback_ceiling holes

/-- validation.validate_crosses: raises (returns an error) iff
crosses < 0 or crosses > max_crosses holes. -/
def validate_crosses (holes crosses : Int) : Except ErrKind Unit :=
  if crosses < 0 ∨ crosses > max_crosses holes then .error .crossesOutOfRange
  else .ok ()

/-- validation.common_crosses: a fixed preset list for the five common
hole counts, list(range(0, max_crosses + 1)) via the fallback formula
otherwise. -/
def common_crosses (holes : Int) : List Int :=
  if holes = 20 then [0, 1, 2]
  else if holes = 24 then [0, 1, 2, 3]
  else if holes = 28 then [0, 1, 2, 3]
  else if holes = 32 then [0, 1, 2, 3, 4]
  else if holes = 36 then [0, 1, 2, 3, 4]
  else (List.range ((fallback_ceiling holes + 1).toNat)).map (fun (j : Nat) => (j : Int))

/-- Modelled from the spec: the crosses ceiling exactly as claim C4 words
it, for comparison against the implementation in validate_crosses. -/
def spec_ceiling (holes : Int) : Int :=
  if holes = 20 then 1
  else if holes = 24 ∨ holes = 28 then 3
  else if holes = 32 ∨ holes = 36 then 4
  else (holes / 2 - 2) / 2

/-- validate_crosses succeeds exactly when crosses is within 0..max_crosses. -/
theorem validate_ok_iff (holes c : Int) :
    validate_crosses holes c = .ok () ↔ ¬(c < 0 ∨ c > max_crosses holes) := by
  unfold validate_crosses
  split
  · rename_i h
    constructor
    · intro habs
      simp at habs
    · intro hn
      exact absurd h hn
  · rename_i h
    constructor
    · intro _
      exact h
    · intro _
      rfl

/-- validate_crosses only ever produces the CrossesOutOfRange error kind. -/
theorem validate_error_kind {holes c : Int} {e : ErrKind}
    (h : validate_crosses holes c = .error e) : e = .crossesOutOfRange := by
  unfold validate_crosses at h
  split at h
  · exact (Except.error.inj h).symm
  · exact absurd h (by simp)

/-- Claim C4: for every even holes greater or equal 20 and every integer
crosses, validate_crosses fails with the CrossesOutOfRange kind iff
crosses < 0 or crosses exceeds the ceiling named by the spec (table
values 20 to 1, 24 and 28 to 3, 32 and 36 to 4, fallback floor((H-2)/2)
with H = holes/2 otherwise). -/
theorem validate_crosses_spec (holes crosses : Int)
    (_h20 : 20 ≤ holes) (_heven : holes % 2 = 0) :
    validate_crosses holes crosses = .error .crossesOutOfRange ↔
      (crosses < 0 ∨ crosses > spec_ceiling holes) := by
  have hmax : max_crosses holes = spec_ceiling holes := rfl
  unfold validate_crosses
  rw [hmax]
  split
  · rename_i h
    constructor
    · intro _
      exact h
    · intro _
      rfl
  · rename_i h
    constructor
    · intro habs
      simp at habs
    · intro hcon
      exact absurd hcon h

/-- Witness for claim C4 at the boundary input holes = 20, crosses = 2:
the hypotheses hold and the theorem decides that validation fails. -/
theorem validate_crosses_spec_witness :
    validate_crosses 20 2 = .error .crossesOutOfRange :=
  (validate_crosses_spec 20 2 (by decide) (by decide)).mpr (by decide)

/-- Claim C9 counterexample: at the tabulated point holes = 20 the
fallback formula yields 4 while the validator's table yields 1, so the
two definitions do not agree there. -/
theorem fallback_vs_table_20 :
    fallback_ceiling 20 = 4 ∧ max_crosses 20 = 1 ∧
      fallback_ceiling 20 ≠ max_crosses 20 := by
  refine ⟨by decide, by decide, by decide⟩

/-- Claim C9 amended: the fallback formula floor((H-2)/2) disagrees with
the validator's fixed table at every tabulated point, and is strictly
larger there: it yields 4, 5, 6, 7, 8 at 20, 24, 28, 32, 36 holes while
the table gives 1, 3, 3, 4, 4. -/
theorem fallback_vs_table_all :
    (fallback_ceiling 20 = 4 ∧ max_crosses 20 = 1) ∧
    (fallback_ceiling 24 = 5 ∧ max_crosses 24 = 3) ∧
    (fallback_ceiling 28 = 6 ∧ max_crosses 28 = 3) ∧
    (fallback_ceiling 32 = 7 ∧ max_crosses 32 = 4) ∧
    (fallback_ceiling 36 = 8 ∧ max_crosses 36 = 4) := by
  refine ⟨⟨by decide, by decide⟩, ⟨by decide, by decide⟩, ⟨by decide, by decide⟩,
    ⟨by decide, by decide⟩, ⟨by decide, by decide⟩⟩

/-- Claim C6 counterexample: common_crosses 20 lists the value 2, yet
validate_crosses rejects crosses = 2 for 20 holes, so the list is not
consistent with the validator at holes = 20. -/
theorem common_crosses_20_inconsistent :
    (2 : Int) ∈ common_crosses 20 ∧
      validate_crosses 20 2 = .error .crossesOutOfRange := by
  refine ⟨by decide, rfl⟩

/-- Claim C6 amended: for every even hole count other than 20,
common_crosses returns exactly the ascending list 0, 1, ..., c of all
crosses values accepted by validate_crosses: membership in the list is
equivalent to passing validation, and the list is an initial segment of
the naturals. At holes = 20 the list 0, 1, 2 instead contains the
rejected value 2. -/
theorem common_crosses_consistent (holes crosses : Int)
    (heven : holes % 2 = 0) (hne : holes ≠ 20) :
    (crosses ∈ common_crosses holes ↔ validate_crosses holes crosses = .ok ()) ∧
      common_crosses holes =
        (List.range (common_crosses holes).length).map (fun (j : Nat) => (j : Int)) := by
  rw [validate_ok_iff]
  by_cases h24 : holes = 24
  · subst h24
    constructor
    · simp only [common_crosses, max_crosses]
      norm_num [List.mem_cons]
      omega
    · decide
  by_cases h28 : holes = 28
  · subst h28
    constructor
    · simp only [common_crosses, max_crosses]
      norm_num [List.mem_cons]
      omega
    · decide
  by_cases h32 : holes = 32
  · subst h32
    constructor
    · simp only [common_crosses, max_crosses]
      norm_num [List.mem_cons]
      omega
    · decide
  by_cases h36 : holes = 36
  · subst h36
    constructor
    · simp only [common_crosses, max_crosses]
      norm_num [List.mem_cons]
      omega
    · decide
  · have hcc : common_crosses holes =
        (List.range ((fallback_ceiling holes + 1).toNat)).map (fun (j : Nat) => (j : Int)) := by
      unfold common_crosses
      rw [if_neg hne, if_neg h24, if_neg h28, if_neg h32, if_neg h36]
    have hmx : max_crosses holes = fallback_ceiling holes := by
      unfold max_crosses
      rw [if_neg hne, if_neg (by tauto), if_neg (by tauto)]
    have hmem : crosses ∈ common_crosses holes ↔
        0 ≤ crosses ∧ crosses ≤ fallback_ceiling holes := by
      rw [hcc]
      constructor
      · intro hx
        rcases List.mem_map.1 hx with ⟨j, hj, rfl⟩
        have hjm := List.mem_range.1 hj
        omega
      · intro hx
        exact List.mem_map.2 ⟨crosses.toNat, List.mem_range.2 (by omega), by omega⟩
    constructor
    · rw [hmem, hmx]
      omega
    · rw [hcc]
      simp

/-- schraner._effective_start_rim_hole: right_of_valve shifts the start
one step counter-clockwise, left_of_valve leaves it unchanged. -/
def effective_start_rim_hole (req : PatternRequest) : Int :=
  if req.valveReference = "right_of_valve" then
    ((req.startRimHole - 2) % req.holes) + 1
  else req.startRimHole

/-- schraner._rim_hole_for_k: DS takes even offsets 2(k-1) from the
effective start, NDS the odd offsets 1 + 2(k-1), both wrapped mod n. -/
def rim_hole_for_k (n es : Int) (side : String) (k : Int) : Int :=
  if side = "DS" then ((es - 1) + (2 * (k - 1))) % n + 1
  else ((es - 1) + (1 + 2 * (k - 1))) % n + 1

/-- schraner._physical_hub_hole: rotate a logical hub index by the
side's start offset, wrapped mod h. -/
def physical_hub_hole (hubHoleIndex startHubHole h : Int) : Int :=
  ((hubHoleIndex - 1) + (startHubHole - 1)) % h + 1

/-- schraner._heads_for_set: Odd set to OUT and Even set to IN by
default; invertHeads swaps the pair. -/
def heads_for_set (req : PatternRequest) (oddEvenSet : String) : String :=
  if req.invertHeads then
    (if oddEvenSet = "Odd" then "IN" else "OUT")
  else
    (if oddEvenSet = "Odd" then "OUT" else "IN")

/-- schraner._crosses_described. -/
def crosses_described (crosses : Int) : String :=
  if crosses = 0 then "0x radial"
  else toString crosses ++ "x (over " ++ toString (crosses - 1) ++ ", under 1)"

/-- schraner._odd_even_set: parity of the logical hub hole index. -/
def odd_even_set (hubHoleIndex : Int) : String :=
  if hubHoleIndex % 2 = 1 then "Odd" else "Even"

/-- schraner._k_for_hub_hole: odd indices are their own set index, even
indices are shifted by 2*crosses (minus on DS, plus on NDS), mod h. -/
def k_for_hub_hole (hubHoleIndex crosses : Int) (side : String) (h : Int) : Int :=
  if hubHoleIndex % 2 = 1 then hubHoleIndex
  else if side = "DS" then ((hubHoleIndex - 1 - 2 * crosses) % h) + 1
  else ((hubHoleIndex - 1 + 2 * crosses) % h) + 1

/-- The second DS reference index: 2 for zero crosses, else
2*crosses + 2, wrapped into 1..h. -/
def secondRefIdx (c h : Int) : Int :=
  ((((if c = 0 then 2 else 2 * c + 2)) - 1) % h) + 1

/-- Python list(range(1, h+1, 2)): the odd indices 1, 3, ... up to h. -/
def oddIndices (h : Int) : List Int :=
  (List.range (((h + 1) / 2).toNat)).map (fun (j : Nat) => 2 * (j : Int) + 1)

/-- Python list(range(2, h+1, 2)): the even indices 2, 4, ... up to h. -/
def evenIndices (h : Int) : List Int :=
  (List.range ((h / 2).toNat)).map (fun (j : Nat) => 2 * (j : Int) + 2)

/-- The DS build sequence of (hub index, step, notes) triples: the two
reference rows, then the remaining odd set, then the remaining even set. -/
def dsSpecs (c h : Int) : List (Int × String × String) :=
  (1, "R1", "Reference at valve (valve-left)") ::
  (secondRefIdx c h, "R1", "Second reference at valve (valve-right)") ::
  (((oddIndices h).filter (fun i => i != 1)).map (fun i => (i, "R2", "Odd set fill")) ++
   ((evenIndices h).filter (fun i => i != secondRefIdx c h)).map
     (fun i => (i, "R3", "Even set weave")))

/-- The NDS build sequence, sharing the DS second-reference index. -/
def ndsSpecs (c h : Int) : List (Int × String × String) :=
  (1, "L1", "NDS start reference (valve-right)") ::
  (secondRefIdx c h, "L1", "Second reference (valve-left)") ::
  (((oddIndices h).filter (fun i => i != 1)).map (fun i => (i, "L3", "Odd set fill")) ++
   ((evenIndices h).filter (fun i => i != secondRefIdx c h)).map
     (fun i => (i, "L4", "Even set weave")))

/-- The full build sequence, DS side first, tagged with the side name. -/
def allSpecs (c h : Int) : List (String × Int × String × String) :=
  (dsSpecs c h).map (fun s => ("DS", s.1, s.2.1, s.2.2)) ++
  (ndsSpecs c h).map (fun s => ("NDS", s.1, s.2.1, s.2.2))

/-- Python f-string 02d padding for the spoke label. -/
def pad2 (x : Int) : String :=
  if x < 10 then "0" ++ toString x else toString x

/-- schraner.compute_pattern's inner make_row closure. -/
def makeRow (req : PatternRequest) (n h es : Int) (side : String)
    (hubHoleIndex : Int) (step notes : String) (order : Int) : PatternRow :=
  let oddEven := odd_even_set hubHoleIndex
  let k := k_for_hub_hole hubHoleIndex req.crosses side h
  let rim := rim_hole_for_k n es side k
  let physical :=
    if side = "DS" then physical_hub_hole hubHoleIndex req.startHubHoleDS h
    else physical_hub_hole hubHoleIndex req.startHubHoleNDS h
  let notes2 :=
    if req.symmetry = "asymmetrical" then
      notes ++ ". " ++ "Asymmetrical build selected (heads unchanged in v1)"
    else notes
  { spoke := side ++ "-" ++ pad2 physical
    order := order
    step := step
    side := side
    oddEvenSet := oddEven
    k := k
    hubHole := physical
    heads := heads_for_set req oddEven
    rimHole := rim
    crossesDescribed := crosses_described req.crosses
    notes := notes2 }

/-- The row list built by compute_pattern: every spec row in sequence,
with the running order counter starting at 1. -/
def buildRows (req : PatternRequest) (n h es : Int) : List PatternRow :=
  ((allSpecs req.crosses h).enum).map (fun p =>
    makeRow req n h es p.2.1 p.2.2.1 p.2.2.2.1 p.2.2.2.2 ((p.1 : Int) + 1))

/-- The successful response value of compute_pattern. -/
def buildResponse (req : PatternRequest) : PatternResponse :=
  { params := req
    derived :=
      { H := derive_H req.holes
        spokesPerSide := derive_H req.holes
        spokesPerSet := derive_H req.holes / 2 }
    rows := buildRows req req.holes (derive_H req.holes) (effective_start_rim_hole req) }

/-- The interval 1, 2, ..., n as an integer list (empty for n below 1);
Python's list(range(1, n + 1)). -/
def oneTo (n : Int) : List Int :=
  (List.range n.toNat).map (fun (j : Nat) => (j : Int) + 1)

/-- The post-build rim multiset check of compute_pattern: true when a
rim hole in 1..n is missing from the built rows or some rim hole is
duplicated. -/
def rimCheckFails (rims : List Int) (n : Int) : Bool :=
  (!((oneTo n).filter (fun hole => !(rims.contains hole))).isEmpty) ||
  rims.any (fun hole => decide (1 < rims.count hole))

/-- schraner.compute_pattern: hole-count guard, crosses validation, row
construction, and the debug-gated post-build assertion that only runs
for 32 holes. -/
def compute_pattern (req : PatternRequest) : Except ErrKind PatternResponse :=
  if req.holes < 20 ∨ req.holes % 2 ≠ 0 then .error .invalidHoleCount
  else
    match validate_crosses req.holes req.crosses with
    | .error e => .error e
    | .ok _ =>
      if req.holes = 32 ∧
          rimCheckFails ((buildResponse req).rows.map PatternRow.rimHole) req.holes then
        .error .internalAssertion
      else .ok (buildResponse req)

/-- Projection of a row onto every field except spoke and hubHole, the
two fields that depend on the hub start offsets. -/
def rowCore (r : PatternRow) :
    Int × String × String × String × Int × String × Int × String × String :=
  (r.order, r.step, r.side, r.oddEvenSet, r.k, r.heads, r.rimHole,
    r.crossesDescribed, r.notes)

/-- The concrete request of claim C7: 32 holes, 3 crosses,
right_of_valve, startRimHole 1, defaults elsewhere. -/
def reqC7 : PatternRequest :=
  { holes := 32, wheelType := "rear", crosses := 3, symmetry := "symmetrical",
    invertHeads := false, startRimHole := 1, valveReference := "right_of_valve",
    startHubHoleDS := 1, startHubHoleNDS := 1 }

/-- The response computed for reqC7. -/
def respC7 : PatternResponse :=
  match compute_pattern reqC7 with
  | .ok r => r
  | .error _ => buildResponse reqC7

/-- Claim C7 evaluation: on the claimed input the code returns rows whose
four reference entries carry rim holes 32, 2, 1, 27 - not the 32, 1, 1,
32 asserted by the spec and by the repository's own test
test_valve_reference_pairing_32h. The first two entries of the row list
are the DS reference rows and entries 17 and 18 are the NDS reference
rows, identified here by their notes text. -/
theorem compute_32_reference_rims :
    compute_pattern reqC7 = .ok respC7 ∧
    (respC7.rows.map (fun r => (r.notes, r.rimHole))).take 2 =
      [("Reference at valve (valve-left)", 32),
       ("Second reference at valve (valve-right)", 2)] ∧
    ((respC7.rows.map (fun r => (r.notes, r.rimHole))).drop 16).take 2 =
      [("NDS start reference (valve-right)", 1),
       ("Second reference (valve-left)", 27)] := by
  refine ⟨rfl, by decide, by decide⟩

/-- The concrete request of claim C5's failing input: 22 holes, 1 cross
(accepted by validation), defaults elsewhere. -/
def reqC5 : PatternRequest :=
  { holes := 22, wheelType := "rear", crosses := 1, symmetry := "symmetrical",
    invertHeads := false, startRimHole := 1, valveReference := "left_of_valve",
    startHubHoleDS := 1, startHubHoleNDS := 1 }

/-- The response computed for reqC5. -/
def respC5 : PatternResponse :=
  match compute_pattern reqC5 with
  | .ok r => r
  | .error _ => buildResponse reqC5

/-- Claim C5 evaluation: for 22 holes and 1 cross the code returns a full
row list in which rim hole 21 is used twice and rim hole 19 is never
used - the post-build self-check is gated on holes = 32 and never runs
here, so the duplicated and missing rim holes are returned silently. -/
theorem compute_22_returns_duplicates :
    compute_pattern reqC5 = .ok respC5 ∧
    (respC5.rows.map PatternRow.rimHole).count 21 = 2 ∧
    (19 : Int) ∉ respC5.rows.map PatternRow.rimHole := by
  refine ⟨rfl, by decide, by decide⟩

/-- Membership characterisation of the interval list oneTo. -/
theorem mem_oneTo {x n : Int} : x ∈ oneTo n ↔ 1 ≤ x ∧ x ≤ n := by
  constructor
  · intro hx
    rcases List.mem_map.1 hx with ⟨j, hj, rfl⟩
    have hjm := List.mem_range.1 hj
    omega
  · intro hx
    exact List.mem_map.2 ⟨(x - 1).toNat, List.mem_range.2 (by omega), by omega⟩

/-- Membership characterisation of the odd hub index list. -/
theorem mem_oddIndices {x h : Int} : x ∈ oddIndices h ↔ x % 2 = 1 ∧ 1 ≤ x ∧ x ≤ h := by
  constructor
  · intro hx
    rcases List.mem_map.1 hx with ⟨j, hj, rfl⟩
    have hjm := List.mem_range.1 hj
    omega
  · intro hx
    exact List.mem_map.2 ⟨((x - 1) / 2).toNat, List.mem_range.2 (by omega), by omega⟩

/-- Membership characterisation of the even hub index list. -/
theorem mem_evenIndices {x h : Int} : x ∈ evenIndices h ↔ x % 2 = 0 ∧ 1 ≤ x ∧ x ≤ h := by
  constructor
  · intro hx
    rcases List.mem_map.1 hx with ⟨j, hj, rfl⟩
    have hjm := List.mem_range.1 hj
    omega
  · intro hx
    exact List.mem_map.2 ⟨((x - 2) / 2).toNat, List.mem_range.2 (by omega), by omega⟩

/-- oneTo has no duplicates. -/
theorem nodup_oneTo (n : Int) : (oneTo n).Nodup :=
  (List.nodup_range _).map (fun a b hab => by omega)

/-- oddIndices has no duplicates. -/
theorem nodup_oddIndices (h : Int) : (oddIndices h).Nodup :=
  (List.nodup_range _).map (fun a b hab => by omega)

/-- evenIndices has no duplicates. -/
theorem nodup_evenIndices (h : Int) : (evenIndices h).Nodup :=
  (List.nodup_range _).map (fun a b hab => by omega)

/-- The odd and even index lists together are a permutation of 1..h. -/
theorem odds_evens_perm (h : Int) :
    List.Perm (oddIndices h ++ evenIndices h) (oneTo h) := by
  have hno : (oddIndices h ++ evenIndices h).Nodup := by
    refine (nodup_oddIndices h).append (nodup_evenIndices h) ?_
    intro a ha hb
    have h1 := mem_oddIndices.1 ha
    have h2 := mem_evenIndices.1 hb
    omega
  refine (List.perm_ext_iff_of_nodup hno (nodup_oneTo h)).2 ?_
  intro a
  rw [List.mem_append, mem_oddIndices, mem_evenIndices, mem_oneTo]
  omega

/-- Equal remainders after a common shift force equality for values in
the window 1..m. -/
theorem addShift_emod_inj {m s x y : Int} (_hm : 0 < m)
    (hx1 : 1 ≤ x) (hx2 : x ≤ m) (hy1 : 1 ≤ y) (hy2 : y ≤ m)
    (h : (x - 1 + s) % m = (y - 1 + s) % m) : x = y := by
  have h2 : (x - 1) % m = (y - 1) % m := by
    rw [Int.emod_eq_emod_iff_emod_sub_eq_zero] at h ⊢
    have h3 : x - 1 + s - (y - 1 + s) = x - 1 - (y - 1) := by ring
    rwa [h3] at h
  rw [Int.emod_eq_of_lt (by omega) (by omega),
    Int.emod_eq_of_lt (by omega) (by omega)] at h2
  omega

/-- A remainder can be taken before or after adding a second term. -/
theorem emod_add_cancel (m a b : Int) : ((a % m) + b) % m = (a + b) % m := by
  rw [Int.emod_def a m]
  have h : a - m * (a / m) + b = (a + b) + m * (-(a / m)) := by ring
  rw [h, Int.add_mul_emod_self_left]

/-- Rotating the interval 1..n by a fixed shift, with wraparound mod n,
permutes the interval. -/
theorem rot_perm (n s : Int) (hn : 0 < n) :
    List.Perm ((oneTo n).map (fun x => ((x - 1) + s) % n + 1)) (oneTo n) := by
  have hnz : n ≠ 0 := by omega
  have hnd : ((oneTo n).map (fun x => ((x - 1) + s) % n + 1)).Nodup := by
    refine (nodup_oneTo n).map_on ?_
    intro x hx y hy hxy
    have hx2 := mem_oneTo.1 hx
    have hy2 := mem_oneTo.1 hy
    have h : (x - 1 + s) % n = (y - 1 + s) % n := by omega
    exact addShift_emod_inj hn hx2.1 hx2.2 hy2.1 hy2.2 h
  refine (List.perm_ext_iff_of_nodup hnd (nodup_oneTo n)).2 ?_
  intro y
  constructor
  · intro hy
    rcases List.mem_map.1 hy with ⟨x, hx, rfl⟩
    have h1 := Int.emod_nonneg ((x - 1) + s) hnz
    have h2 := Int.emod_lt_of_pos ((x - 1) + s) hn
    exact mem_oneTo.2 (by omega)
  · intro hy
    have hy2 := mem_oneTo.1 hy
    have h1 := Int.emod_nonneg ((y - 1) - s) hnz
    have h2 := Int.emod_lt_of_pos ((y - 1) - s) hn
    refine List.mem_map.2 ⟨((y - 1) - s) % n + 1, mem_oneTo.2 (by omega), ?_⟩
    have h3 : ((y - 1) - s) % n + 1 - 1 + s = ((y - 1) - s) % n + s := by ring
    rw [h3, emod_add_cancel]
    have h4 : (y - 1) - s + s = y - 1 := by ring
    rw [h4, Int.emod_eq_of_lt (by omega) (by omega)]
    ring

/-- The parity-preserving shift used by k_for_hub_hole on the even set
permutes the interval 1..h when h is even: odd values stay fixed and
even values are shifted among themselves. -/
theorem kshift_perm (h t : Int) (h2 : (2 : Int) ∣ h) (h0 : 0 < h) (ht : t % 2 = 0) :
    List.Perm
      ((oneTo h).map (fun x => if x % 2 = 1 then x else ((x - 1 + t) % h) + 1))
      (oneTo h) := by
  have hnz : h ≠ 0 := by omega
  have hpar : ∀ x : Int, x % 2 = 0 → ((x - 1 + t) % h) % 2 = 1 := by
    intro x hx
    rw [Int.emod_emod_of_dvd _ h2]
    omega
  have hnd : ((oneTo h).map
      (fun x => if x % 2 = 1 then x else ((x - 1 + t) % h) + 1)).Nodup := by
    refine (nodup_oneTo h).map_on ?_
    intro x hx y hy hxy
    have hx2 := mem_oneTo.1 hx
    have hy2 := mem_oneTo.1 hy
    by_cases hpx : x % 2 = 1 <;> by_cases hpy : y % 2 = 1
    · rwa [if_pos hpx, if_pos hpy] at hxy
    · rw [if_pos hpx, if_neg hpy] at hxy
      have hp := hpar y (by omega)
      omega
    · rw [if_neg hpx, if_pos hpy] at hxy
      have hp := hpar x (by omega)
      omega
    · rw [if_neg hpx, if_neg hpy] at hxy
      have h3 : (x - 1 + t) % h = (y - 1 + t) % h := by omega
      exact addShift_emod_inj h0 hx2.1 hx2.2 hy2.1 hy2.2 h3
  refine (List.perm_ext_iff_of_nodup hnd (nodup_oneTo h)).2 ?_
  intro y
  constructor
  · intro hy
    rcases List.mem_map.1 hy with ⟨x, hx, rfl⟩
    have hx2 := mem_oneTo.1 hx
    by_cases hp : x % 2 = 1
    · rw [if_pos hp]
      exact hx
    · rw [if_neg hp]
      have hb1 := Int.emod_nonneg (x - 1 + t) hnz
      have hb2 := Int.emod_lt_of_pos (x - 1 + t) h0
      exact mem_oneTo.2 (by omega)
  · intro hy
    have hy2 := mem_oneTo.1 hy
    by_cases hp : y % 2 = 1
    · refine List.mem_map.2 ⟨y, hy, ?_⟩
      rw [if_pos hp]
    · have hb1 := Int.emod_nonneg (y - 1 - t) hnz
      have hb2 := Int.emod_lt_of_pos (y - 1 - t) h0
      have hp2 : ((y - 1 - t) % h) % 2 = 1 := by
        rw [Int.emod_emod_of_dvd _ h2]
        omega
      refine List.mem_map.2 ⟨((y - 1 - t) % h) + 1, mem_oneTo.2 (by omega), ?_⟩
      rw [if_neg (by omega)]
      have h3 : ((y - 1 - t) % h + 1) - 1 + t = ((y - 1 - t) % h) + t := by ring
      rw [h3, emod_add_cancel]
      have h4 : (y - 1 - t) + t = y - 1 := by ring
      rw [h4, Int.emod_eq_of_lt (by omega) (by omega)]
      ring

/-- Mapping k_for_hub_hole over 1..h permutes 1..h when h is even, on
either side and for any cross count. -/
theorem kfor_perm (c h : Int) (side : String) (h2 : (2 : Int) ∣ h) (h0 : 0 < h) :
    List.Perm ((oneTo h).map (fun x => k_for_hub_hole x c side h)) (oneTo h) := by
  have heq : (fun x => k_for_hub_hole x c side h) =
      (fun x => if x % 2 = 1 then x
        else ((x - 1 + (if side = "DS" then -(2 * c) else 2 * c)) % h) + 1) := by
    funext x
    by_cases hs : side = "DS"
    · by_cases hp : x % 2 = 1 <;> simp [k_for_hub_hole, hs, hp, sub_eq_add_neg]
    · by_cases hp : x % 2 = 1 <;> simp [k_for_hub_hole, hs, hp]
  rw [heq]
  exact kshift_perm h _ h2 h0 (by split <;> omega)

/-- Under validation bounds the second reference index is 2*crosses + 2,
uniformly in the crosses = 0 case. -/
theorem secondRefIdx_eq {c h : Int} (hc : 0 ≤ c) (hch : 2 * c + 2 ≤ h) :
    secondRefIdx c h = 2 * c + 2 := by
  unfold secondRefIdx
  by_cases h0 : c = 0
  · subst h0
    rw [if_pos rfl]
    have h1 : ((2 : Int) - 1) % h = 1 := by
      have he : ((2 : Int) - 1) = 1 := by norm_num
      rw [he]
      exact Int.emod_eq_of_lt (by omega) (by omega)
    omega
  · rw [if_neg h0]
    have h1 : (2 * c + 2 - 1) % h = 2 * c + 1 := by
      have he : (2 * c + 2 - 1) = 2 * c + 1 := by ring
      rw [he]
      exact Int.emod_eq_of_lt (by omega) (by omega)
    omega

/-- The hub index sequence of the DS spec list. -/
theorem dsSpecs_indices (c h : Int) : (dsSpecs c h).map (fun s => s.1) =
    1 :: secondRefIdx c h ::
      (((oddIndices h).filter (fun i => i != 1)) ++
       ((evenIndices h).filter (fun i => i != secondRefIdx c h))) := by
  simp [dsSpecs, List.map_map, Function.comp_def]

/-- The hub index sequence of the NDS spec list: identical to DS. -/
theorem ndsSpecs_indices (c h : Int) : (ndsSpecs c h).map (fun s => s.1) =
    1 :: secondRefIdx c h ::
      (((oddIndices h).filter (fun i => i != 1)) ++
       ((evenIndices h).filter (fun i => i != secondRefIdx c h))) := by
  simp [ndsSpecs, List.map_map, Function.comp_def]

/-- Each side's hub index sequence is a permutation of 1..h under the
validation bounds: the two reference indices are re-inserted exactly
where the filters removed them. -/
theorem sideIndices_perm {c h : Int} (hc : 0 ≤ c) (hch : 2 * c + 2 ≤ h) :
    List.Perm
      (1 :: secondRefIdx c h ::
        (((oddIndices h).filter (fun i => i != 1)) ++
         ((evenIndices h).filter (fun i => i != secondRefIdx c h))))
      (oneTo h) := by
  have hsr := secondRefIdx_eq hc hch
  have hnodApp : ((((oddIndices h).filter (fun i => i != 1))) ++
      ((evenIndices h).filter (fun i => i != secondRefIdx c h))).Nodup := by
    refine ((nodup_oddIndices h).filter _).append ((nodup_evenIndices h).filter _) ?_
    intro a ha hb
    have h1 := mem_oddIndices.1 (List.mem_of_mem_filter ha)
    have h2 := mem_evenIndices.1 (List.mem_of_mem_filter hb)
    omega
  have hnod : (1 :: secondRefIdx c h ::
      (((oddIndices h).filter (fun i => i != 1)) ++
       ((evenIndices h).filter (fun i => i != secondRefIdx c h)))).Nodup := by
    refine List.nodup_cons.2 ⟨?_, List.nodup_cons.2 ⟨?_, hnodApp⟩⟩
    · intro hmem
      rcases List.mem_cons.1 hmem with h1 | h1
      · omega
      rcases List.mem_append.1 h1 with hA | hA
      · have h3 := (List.mem_filter.1 hA).2
        simp at h3
      · have h3 := mem_evenIndices.1 (List.mem_of_mem_filter hA)
        omega
    · intro hmem
      rcases List.mem_append.1 hmem with hA | hA
      · have h3 := mem_oddIndices.1 (List.mem_of_mem_filter hA)
        omega
      · have h3 := (List.mem_filter.1 hA).2
        simp at h3
  refine (List.perm_ext_iff_of_nodup hnod (nodup_oneTo h)).2 ?_
  intro a
  constructor
  · intro hmem
    rcases List.mem_cons.1 hmem with h1 | h1
    · rw [h1]
      exact mem_oneTo.2 (by omega)
    rcases List.mem_cons.1 h1 with h1b | h1b
    · rw [h1b, hsr]
      exact mem_oneTo.2 (by omega)
    rcases List.mem_append.1 h1b with hA | hA
    · have h3 := mem_oddIndices.1 (List.mem_of_mem_filter hA)
      exact mem_oneTo.2 (by omega)
    · have h3 := mem_evenIndices.1 (List.mem_of_mem_filter hA)
      exact mem_oneTo.2 (by omega)
  · intro hmem
    have ha := mem_oneTo.1 hmem
    by_cases h1 : a = 1
    · rw [h1]
      exact List.mem_cons_self _ _
    by_cases h2b : a = secondRefIdx c h
    · rw [h2b]
      exact List.mem_cons.2 (Or.inr (List.mem_cons_self _ _))
    by_cases hp : a % 2 = 1
    · refine List.mem_cons.2 (Or.inr (List.mem_cons.2 (Or.inr
        (List.mem_append.2 (Or.inl ?_)))))
      refine List.mem_filter.2 ⟨mem_oddIndices.2 ⟨hp, by omega, by omega⟩, ?_⟩
      simpa using h1
    · refine List.mem_cons.2 (Or.inr (List.mem_cons.2 (Or.inr
        (List.mem_append.2 (Or.inr ?_)))))
      refine List.mem_filter.2 ⟨mem_evenIndices.2 ⟨by omega, by omega, by omega⟩, ?_⟩
      simpa using h2b

/-- Projecting an index-independent field out of an enumerated map
forgets the enumeration. -/
theorem enumFrom_map_snd_proj {α β γ : Type} (F : Nat × α → β) (g : β → γ) (G : α → γ)
    (hg : ∀ i a, g (F (i, a)) = G a) :
    ∀ (k : Nat) (l : List α), ((List.enumFrom k l).map F).map g = l.map G
  | _, [] => rfl
  | k, a :: l => by
    show g (F (k, a)) :: ((List.enumFrom (k + 1) l).map F).map g = G a :: l.map G
    rw [hg, enumFrom_map_snd_proj F g G hg (k + 1) l]

/-- Projecting the enumeration index out of an enumerated map yields the
index range. -/
theorem enumFrom_map_fst_proj {α β γ : Type} (F : Nat × α → β) (g : β → γ) (G : Nat → γ)
    (hg : ∀ i a, g (F (i, a)) = G i) :
    ∀ (k : Nat) (l : List α), ((List.enumFrom k l).map F).map g = (List.range' k l.length).map G
  | _, [] => rfl
  | k, a :: l => by
    show g (F (k, a)) :: ((List.enumFrom (k + 1) l).map F).map g =
      G k :: (List.range' (k + 1) l.length).map G
    rw [hg, enumFrom_map_fst_proj F g G hg (k + 1) l]

/-- Filtering an enumerated map by an index-independent predicate and
projecting an index-independent field forgets the enumeration. -/
theorem enumFrom_filter_proj {α β γ : Type} (F : Nat × α → β) (P : β → Bool)
    (Q : α → Bool) (g : β → γ) (G : α → γ)
    (hP : ∀ i a, P (F (i, a)) = Q a) (hg : ∀ i a, g (F (i, a)) = G a) :
    ∀ (k : Nat) (l : List α),
      (((List.enumFrom k l).map F).filter P).map g = (l.filter Q).map G := by
  intro k l
  induction l generalizing k with
  | nil => rfl
  | cons a l ih =>
    show ((F (k, a) :: (List.enumFrom (k + 1) l).map F).filter P).map g =
      ((a :: l).filter Q).map G
    rw [List.filter_cons, List.filter_cons, hP k a]
    by_cases hq : Q a = true
    · rw [if_pos hq, if_pos hq, List.map_cons, hg k a, ih (k + 1), List.map_cons]
    · rw [if_neg hq, if_neg hq, ih (k + 1)]

/-- The rim hole of a row as a function of its spec entry. -/
def specRim (c n h es : Int) (s : String × Int × String × String) : Int :=
  rim_hole_for_k n es s.1 (k_for_hub_hole s.2.1 c s.1 h)

/-- The physical hub hole of a row as a function of its spec entry. -/
def specHub (req : PatternRequest) (h : Int) (s : String × Int × String × String) : Int :=
  if s.1 = "DS" then physical_hub_hole s.2.1 req.startHubHoleDS h
  else physical_hub_hole s.2.1 req.startHubHoleNDS h

/-- The rim holes of the built rows, spec by spec. -/
theorem buildRows_map_rim (req : PatternRequest) (n h es : Int) :
    (buildRows req n h es).map PatternRow.rimHole =
      (allSpecs req.crosses h).map (specRim req.crosses n h es) :=
  enumFrom_map_snd_proj _ _ _ (fun _ _ => rfl) 0 _

/-- The order fields of the built rows are the enumeration positions. -/
theorem buildRows_map_ord (req : PatternRequest) (n h es : Int) :
    (buildRows req n h es).map PatternRow.order =
      (List.range' 0 (allSpecs req.crosses h).length).map (fun (i : Nat) => (i : Int) + 1) :=
  enumFrom_map_fst_proj _ _ _ (fun _ _ => rfl) 0 _

/-- The hub holes of the built rows on one side, spec by spec. -/
theorem buildRows_filter_hub (req : PatternRequest) (n h es : Int) (side : String) :
    ((buildRows req n h es).filter (fun r => r.side == side)).map PatternRow.hubHole =
      ((allSpecs req.crosses h).filter (fun s => s.1 == side)).map (specHub req h) :=
  enumFrom_filter_proj _ _ _ _ _ (fun _ _ => rfl) (fun _ _ => rfl) 0 _

/-- Restricting the tagged spec list to the DS side recovers the DS specs. -/
theorem allSpecs_filter_ds (c h : Int) :
    (allSpecs c h).filter (fun s => s.1 == "DS") =
      (dsSpecs c h).map (fun s => ("DS", s.1, s.2.1, s.2.2)) := by
  unfold allSpecs
  rw [List.filter_append]
  have h1 : ((dsSpecs c h).map (fun s => ("DS", s.1, s.2.1, s.2.2))).filter
      (fun s => s.1 == "DS") = (dsSpecs c h).map (fun s => ("DS", s.1, s.2.1, s.2.2)) := by
    refine List.filter_eq_self.2 ?_
    intro b hb
    rcases List.mem_map.1 hb with ⟨s, _, rfl⟩
    exact (by decide : (("DS" : String) == "DS") = true)
  have h2 : ((ndsSpecs c h).map (fun s => ("NDS", s.1, s.2.1, s.2.2))).filter
      (fun s => s.1 == "DS") = [] := by
    refine List.filter_eq_nil_iff.2 ?_
    intro b hb
    rcases List.mem_map.1 hb with ⟨s, _, rfl⟩
    exact (by decide : ¬ (("NDS" : String) == "DS") = true)
  rw [h1, h2, List.append_nil]

/-- Restricting the tagged spec list to the NDS side recovers the NDS specs. -/
theorem allSpecs_filter_nds (c h : Int) :
    (allSpecs c h).filter (fun s => s.1 == "NDS") =
      (ndsSpecs c h).map (fun s => ("NDS", s.1, s.2.1, s.2.2)) := by
  unfold allSpecs
  rw [List.filter_append]
  have h1 : ((dsSpecs c h).map (fun s => ("DS", s.1, s.2.1, s.2.2))).filter
      (fun s => s.1 == "NDS") = [] := by
    refine List.filter_eq_nil_iff.2 ?_
    intro b hb
    rcases List.mem_map.1 hb with ⟨s, _, rfl⟩
    exact (by decide : ¬ (("DS" : String) == "NDS") = true)
  have h2 : ((ndsSpecs c h).map (fun s => ("NDS", s.1, s.2.1, s.2.2))).filter
      (fun s => s.1 == "NDS") = (ndsSpecs c h).map (fun s => ("NDS", s.1, s.2.1, s.2.2)) := by
    refine List.filter_eq_self.2 ?_
    intro b hb
    rcases List.mem_map.1 hb with ⟨s, _, rfl⟩
    exact (by decide : (("NDS" : String) == "NDS") = true)
  rw [h1, h2, List.nil_append]

/-- Inversion of a successful compute_pattern call: the guards passed,
validation succeeded, and the result is the built response. -/
theorem compute_ok_inv {req : PatternRequest} {resp : PatternResponse}
    (hok : compute_pattern req = .ok resp) :
    20 ≤ req.holes ∧ req.holes % 2 = 0 ∧
      validate_crosses req.holes req.crosses = .ok () ∧ resp = buildResponse req := by
  unfold compute_pattern at hok
  by_cases hg : req.holes < 20 ∨ req.holes % 2 ≠ 0
  · rw [if_pos hg] at hok
    exact absurd hok (by simp)
  · rw [if_neg hg] at hok
    push_neg at hg
    cases hv : validate_crosses req.holes req.crosses with
    | error e =>
      simp only [hv] at hok
      simp at hok
    | ok u =>
      cases u
      simp only [hv] at hok
      split at hok
      · exact absurd hok (by simp)
      · exact ⟨by omega, by omega, rfl, (Except.ok.inj hok).symm⟩

/-- Bounds extracted from a successful crosses validation: the cross
count is nonnegative and small enough that the second reference index
2*crosses + 2 stays within one flange. -/
theorem validate_ok_bounds {holes c : Int} (h20 : 20 ≤ holes)
    (hok : validate_crosses holes c = .ok ()) :
    0 ≤ c ∧ 2 * c + 2 ≤ holes / 2 := by
  have h := (validate_ok_iff holes c).1 hok
  unfold max_crosses fallback_ceiling derive_H at h
  split_ifs at h <;> omega

/-- The full rim hole multiset of the spec list is a permutation of
1..n when n = 2h and h is even: each side's hub indices permute 1..h,
k_for_hub_hole permutes them again, DS lands on the odd rotated rim
offsets and NDS on the even ones, and the rotation permutes 1..n. -/
theorem specs_rims_perm (c n h es : Int) (hh : n = 2 * h) (hc0 : 0 ≤ c)
    (hc2 : 2 * c + 2 ≤ h) (h2 : (2 : Int) ∣ h) (hh0 : 0 < h) :
    List.Perm ((allSpecs c h).map (specRim c n h es)) (oneTo n) := by
  have e0 : (allSpecs c h).map (specRim c n h es) =
      ((dsSpecs c h).map (fun s => ("DS", s.1, s.2.1, s.2.2))).map (specRim c n h es) ++
      ((ndsSpecs c h).map (fun s => ("NDS", s.1, s.2.1, s.2.2))).map (specRim c n h es) := by
    unfold allSpecs
    rw [List.map_append]
  have e1 : ((dsSpecs c h).map (fun s => ("DS", s.1, s.2.1, s.2.2))).map (specRim c n h es) =
      ((dsSpecs c h).map (fun s => s.1)).map
        (fun i => rim_hole_for_k n es "DS" (k_for_hub_hole i c "DS" h)) := by
    rw [List.map_map, List.map_map]
    exact List.map_congr_left (fun s _ => rfl)
  have e2 : ((ndsSpecs c h).map (fun s => ("NDS", s.1, s.2.1, s.2.2))).map (specRim c n h es) =
      ((ndsSpecs c h).map (fun s => s.1)).map
        (fun i => rim_hole_for_k n es "NDS" (k_for_hub_hole i c "NDS" h)) := by
    rw [List.map_map, List.map_map]
    exact List.map_congr_left (fun s _ => rfl)
  have p1 : List.Perm ((dsSpecs c h).map (fun s => s.1)) (oneTo h) := by
    rw [dsSpecs_indices]
    exact sideIndices_perm hc0 hc2
  have p2 : List.Perm ((ndsSpecs c h).map (fun s => s.1)) (oneTo h) := by
    rw [ndsSpecs_indices]
    exact sideIndices_perm hc0 hc2
  have q1 : ∀ side : String, List.Perm
      ((oneTo h).map (fun i => rim_hole_for_k n es side (k_for_hub_hole i c side h)))
      ((oneTo h).map (fun k => rim_hole_for_k n es side k)) := by
    intro side
    have em : (oneTo h).map (fun i => rim_hole_for_k n es side (k_for_hub_hole i c side h)) =
        ((oneTo h).map (fun i => k_for_hub_hole i c side h)).map
          (fun k => rim_hole_for_k n es side k) := by
      rw [List.map_map]
      exact List.map_congr_left (fun i _ => rfl)
    rw [em]
    exact (kfor_perm c h side h2 hh0).map _
  have r1 : (oneTo h).map (fun k => rim_hole_for_k n es "DS" k) =
      (oddIndices n).map (fun x => ((x - 1) + (es - 1)) % n + 1) := by
    unfold oneTo oddIndices
    rw [List.map_map, List.map_map, show ((n + 1) / 2).toNat = h.toNat by omega]
    refine List.map_congr_left ?_
    intro j _
    show rim_hole_for_k n es "DS" ((j : Int) + 1) =
      ((2 * (j : Int) + 1 - 1) + (es - 1)) % n + 1
    unfold rim_hole_for_k
    rw [if_pos rfl]
    rw [show (es - 1) + 2 * (((j : Int) + 1) - 1) =
      ((2 * (j : Int) + 1 - 1) + (es - 1)) by ring]
  have r2 : (oneTo h).map (fun k => rim_hole_for_k n es "NDS" k) =
      (evenIndices n).map (fun x => ((x - 1) + (es - 1)) % n + 1) := by
    unfold oneTo evenIndices
    rw [List.map_map, List.map_map, show (n / 2).toNat = h.toNat by omega]
    refine List.map_congr_left ?_
    intro j _
    show rim_hole_for_k n es "NDS" ((j : Int) + 1) =
      ((2 * (j : Int) + 2 - 1) + (es - 1)) % n + 1
    unfold rim_hole_for_k
    rw [if_neg (by decide)]
    rw [show (es - 1) + (1 + 2 * (((j : Int) + 1) - 1)) =
      ((2 * (j : Int) + 2 - 1) + (es - 1)) by ring]
  have bigDS : List.Perm
      (((dsSpecs c h).map (fun s => s.1)).map
        (fun i => rim_hole_for_k n es "DS" (k_for_hub_hole i c "DS" h)))
      ((oddIndices n).map (fun x => ((x - 1) + (es - 1)) % n + 1)) := by
    have t := (p1.map (fun i => rim_hole_for_k n es "DS" (k_for_hub_hole i c "DS" h))).trans
      (q1 "DS")
    rwa [r1] at t
  have bigNDS : List.Perm
      (((ndsSpecs c h).map (fun s => s.1)).map
        (fun i => rim_hole_for_k n es "NDS" (k_for_hub_hole i c "NDS" h)))
      ((evenIndices n).map (fun x => ((x - 1) + (es - 1)) % n + 1)) := by
    have t := (p2.map (fun i => rim_hole_for_k n es "NDS" (k_for_hub_hole i c "NDS" h))).trans
      (q1 "NDS")
    rwa [r2] at t
  have tail : List.Perm
      ((oddIndices n).map (fun x => ((x - 1) + (es - 1)) % n + 1) ++
       (evenIndices n).map (fun x => ((x - 1) + (es - 1)) % n + 1))
      (oneTo n) := by
    rw [← List.map_append]
    exact ((odds_evens_perm n).map _).trans (rot_perm n (es - 1) (by omega))
  rw [e0, e1, e2]
  exact (bigDS.append bigNDS).trans tail

/-- The rim holes of a successfully built response form a permutation of
1..holes whenever holes is divisible by 4 (even holes per flange). -/
theorem build_rims_perm {req : PatternRequest}
    (h20 : 20 ≤ req.holes) (heven : req.holes % 2 = 0)
    (hv : validate_crosses req.holes req.crosses = .ok ())
    (h4 : (4 : Int) ∣ req.holes) :
    List.Perm ((buildResponse req).rows.map PatternRow.rimHole) (oneTo req.holes) := by
  obtain ⟨hc0, hc2⟩ := validate_ok_bounds h20 hv
  have e : (buildResponse req).rows = buildRows req req.holes (derive_H req.holes)
      (effective_start_rim_hole req) := rfl
  rw [e, buildRows_map_rim]
  refine specs_rims_perm req.crosses req.holes (derive_H req.holes)
    (effective_start_rim_hole req) ?_ hc0 ?_ ?_ ?_
  · unfold derive_H
    omega
  · exact hc2
  · unfold derive_H
    omega
  · unfold derive_H
    omega

/-- Claim C1: for every parameter set accepted by validation with
symmetry symmetrical and a hole count divisible by 4, the rimHole
values of the returned rows cover 1..holes with no duplicates and no
gaps, for every start rim hole, valve reference, head inversion and hub
start offsets. -/
theorem rims_cover_all {req : PatternRequest} {resp : PatternResponse}
    (hok : compute_pattern req = .ok resp) (_hsym : req.symmetry = "symmetrical")
    (h4 : (4 : Int) ∣ req.holes) :
    List.Perm (resp.rows.map PatternRow.rimHole) (oneTo req.holes) := by
  obtain ⟨h20, heven, hv, hresp⟩ := compute_ok_inv hok
  subst hresp
  exact build_rims_perm h20 heven hv h4

/-- The concrete request used to witness claim C1: 24 holes, 2 crosses. -/
def reqC1 : PatternRequest :=
  { holes := 24, wheelType := "rear", crosses := 2, symmetry := "symmetrical",
    invertHeads := false, startRimHole := 5, valveReference := "right_of_valve",
    startHubHoleDS := 2, startHubHoleNDS := 3 }

/-- Witness for claim C1 at 24 holes and 2 crosses: the computation
succeeds and its rim holes permute 1..24. -/
theorem rims_cover_all_witness :
    compute_pattern reqC1 = .ok (buildResponse reqC1) ∧
      List.Perm ((buildResponse reqC1).rows.map PatternRow.rimHole) (oneTo 24) :=
  ⟨rfl, @rims_cover_all reqC1 (buildResponse reqC1) rfl rfl (by decide)⟩

/-- The length of the tagged spec list is twice the flange hole count. -/
theorem specs_length {c h : Int} (hc0 : 0 ≤ c) (hc2 : 2 * c + 2 ≤ h) :
    (allSpecs c h).length = 2 * h.toNat := by
  have p1 : List.Perm ((dsSpecs c h).map (fun s => s.1)) (oneTo h) := by
    rw [dsSpecs_indices]
    exact sideIndices_perm hc0 hc2
  have p2 : List.Perm ((ndsSpecs c h).map (fun s => s.1)) (oneTo h) := by
    rw [ndsSpecs_indices]
    exact sideIndices_perm hc0 hc2
  have l1 : (dsSpecs c h).length = h.toNat := by
    have hl := p1.length_eq
    simpa [oneTo] using hl
  have l2 : (ndsSpecs c h).length = h.toNat := by
    have hl := p2.length_eq
    simpa [oneTo] using hl
  unfold allSpecs
  rw [List.length_append, List.length_map, List.length_map]
  omega

/-- Claim C2: for every parameter set accepted by validation,
compute_pattern returns exactly holes rows, and the order fields read
1, 2, ..., holes in sequence, a permutation of 1..holes in strictly
increasing position. -/
theorem rows_count_order {req : PatternRequest} {resp : PatternResponse}
    (hok : compute_pattern req = .ok resp) :
    resp.rows.length = req.holes.toNat ∧
      resp.rows.map PatternRow.order = oneTo req.holes := by
  obtain ⟨h20, heven, hv, hresp⟩ := compute_ok_inv hok
  obtain ⟨hc0, hc2⟩ := validate_ok_bounds h20 hv
  subst hresp
  have hlen : (allSpecs req.crosses (derive_H req.holes)).length = req.holes.toNat := by
    have hs := specs_length hc0 hc2
    unfold derive_H at hs ⊢
    omega
  constructor
  · have e : (buildResponse req).rows.length =
        (allSpecs req.crosses (derive_H req.holes)).length := by
      show ((allSpecs req.crosses (derive_H req.holes)).enum.map _).length = _
      rw [List.length_map, List.enum_length]
    omega
  · have e : (buildResponse req).rows.map PatternRow.order =
        (List.range' 0 (allSpecs req.crosses (derive_H req.holes)).length).map
          (fun (i : Nat) => (i : Int) + 1) :=
      buildRows_map_ord req req.holes (derive_H req.holes) (effective_start_rim_hole req)
    rw [e, hlen]
    unfold oneTo
    rw [← List.range_eq_range']

/-- The concrete request used to witness claim C2: 22 holes, 1 cross
(an odd flange count, exercising the general case). -/
def reqC2 : PatternRequest :=
  { holes := 22, wheelType := "front", crosses := 1, symmetry := "asymmetrical",
    invertHeads := true, startRimHole := 3, valveReference := "left_of_valve",
    startHubHoleDS := 1, startHubHoleNDS := 5 }

/-- Witness for claim C2 at 22 holes: exactly 22 rows in order 1..22. -/
theorem rows_count_order_witness :
    compute_pattern reqC2 = .ok (buildResponse reqC2) ∧
      (buildResponse reqC2).rows.length = 22 ∧
      (buildResponse reqC2).rows.map PatternRow.order = oneTo 22 :=
  ⟨rfl, (@rows_count_order reqC2 (buildResponse reqC2) rfl).1,
    (@rows_count_order reqC2 (buildResponse reqC2) rfl).2⟩

/-- Claim C3: for every parameter set accepted by validation, the
hubHole values on each side are exactly 1..H with H = holes/2, each
occurring once, whatever the hub start offsets are. -/
theorem hub_holes_per_side {req : PatternRequest} {resp : PatternResponse}
    (hok : compute_pattern req = .ok resp) :
    List.Perm ((resp.rows.filter (fun r => r.side == "DS")).map PatternRow.hubHole)
      (oneTo (req.holes / 2)) ∧
    List.Perm ((resp.rows.filter (fun r => r.side == "NDS")).map PatternRow.hubHole)
      (oneTo (req.holes / 2)) := by
  obtain ⟨h20, heven, hv, hresp⟩ := compute_ok_inv hok
  obtain ⟨hc0, hc2⟩ := validate_ok_bounds h20 hv
  subst hresp
  have hh0 : (0 : Int) < derive_H req.holes := by
    unfold derive_H
    omega
  have hc2b : 2 * req.crosses + 2 ≤ derive_H req.holes := hc2
  constructor
  · have e1 : ((buildResponse req).rows.filter (fun r => r.side == "DS")).map
        PatternRow.hubHole =
        ((allSpecs req.crosses (derive_H req.holes)).filter (fun s => s.1 == "DS")).map
          (specHub req (derive_H req.holes)) :=
      buildRows_filter_hub req req.holes (derive_H req.holes)
        (effective_start_rim_hole req) "DS"
    rw [e1, allSpecs_filter_ds]
    have e2 : ((dsSpecs req.crosses (derive_H req.holes)).map
        (fun s => ("DS", s.1, s.2.1, s.2.2))).map (specHub req (derive_H req.holes)) =
        ((dsSpecs req.crosses (derive_H req.holes)).map (fun s => s.1)).map
          (fun x => ((x - 1) + (req.startHubHoleDS - 1)) % (derive_H req.holes) + 1) := by
      rw [List.map_map, List.map_map]
      exact List.map_congr_left (fun s _ => rfl)
    rw [e2]
    have p1 : List.Perm ((dsSpecs req.crosses (derive_H req.holes)).map (fun s => s.1))
        (oneTo (derive_H req.holes)) := by
      rw [dsSpecs_indices]
      exact sideIndices_perm hc0 hc2b
    exact (p1.map _).trans (rot_perm (derive_H req.holes) (req.startHubHoleDS - 1) hh0)
  · have e1 : ((buildResponse req).rows.filter (fun r => r.side == "NDS")).map
        PatternRow.hubHole =
        ((allSpecs req.crosses (derive_H req.holes)).filter (fun s => s.1 == "NDS")).map
          (specHub req (derive_H req.holes)) :=
      buildRows_filter_hub req req.holes (derive_H req.holes)
        (effective_start_rim_hole req) "NDS"
    rw [e1, allSpecs_filter_nds]
    have e2 : ((ndsSpecs req.crosses (derive_H req.holes)).map
        (fun s => ("NDS", s.1, s.2.1, s.2.2))).map (specHub req (derive_H req.holes)) =
        ((ndsSpecs req.crosses (derive_H req.holes)).map (fun s => s.1)).map
          (fun x => ((x - 1) + (req.startHubHoleNDS - 1)) % (derive_H req.holes) + 1) := by
      rw [List.map_map, List.map_map]
      exact List.map_congr_left (fun s _ => rfl)
    rw [e2]
    have p2 : List.Perm ((ndsSpecs req.crosses (derive_H req.holes)).map (fun s => s.1))
        (oneTo (derive_H req.holes)) := by
      rw [ndsSpecs_indices]
      exact sideIndices_perm hc0 hc2b
    exact (p2.map _).trans (rot_perm (derive_H req.holes) (req.startHubHoleNDS - 1) hh0)

/-- The concrete request used to witness claim C3: 20 holes, 1 cross,
with nontrivial hub start offsets on both sides. -/
def reqC3 : PatternRequest :=
  { holes := 20, wheelType := "rear", crosses := 1, symmetry := "symmetrical",
    invertHeads := false, startRimHole := 7, valveReference := "left_of_valve",
    startHubHoleDS := 4, startHubHoleNDS := 9 }

/-- Witness for claim C3 at 20 holes with shifted hub starts: each
side's hub holes permute 1..10. -/
theorem hub_holes_per_side_witness :
    compute_pattern reqC3 = .ok (buildResponse reqC3) ∧
      List.Perm (((buildResponse reqC3).rows.filter (fun r => r.side == "DS")).map
        PatternRow.hubHole) (oneTo 10) ∧
      List.Perm (((buildResponse reqC3).rows.filter (fun r => r.side == "NDS")).map
        PatternRow.hubHole) (oneTo 10) :=
  ⟨rfl, (@hub_holes_per_side reqC3 (buildResponse reqC3) rfl).1,
    (@hub_holes_per_side reqC3 (buildResponse reqC3) rfl).2⟩

/-- When the rim holes permute 1..n the post-build check passes. -/
theorem rimCheck_ok_of_perm {rims : List Int} {n : Int}
    (hp : List.Perm rims (oneTo n)) : rimCheckFails rims n = false := by
  unfold rimCheckFails
  have hmissing : (oneTo n).filter (fun hole => !(rims.contains hole)) = [] := by
    refine List.filter_eq_nil_iff.2 ?_
    intro a ha
    have hmem : a ∈ rims := hp.mem_iff.2 ha
    simp [hmem]
  have hdup : rims.any (fun hole => decide (1 < rims.count hole)) = false := by
    refine List.any_eq_false.2 ?_
    intro x _
    have hnd : rims.Nodup := hp.nodup_iff.2 (nodup_oneTo n)
    have hcount := List.nodup_iff_count_le_one.1 hnd x
    simp only [decide_eq_true_eq]
    omega
  rw [hmissing, hdup]
  rfl

/-- Claim C8: compute_pattern fails with InvalidHoleCount exactly when
holes is odd or below 20; for even holes of at least 20 the hole-count
guard passes and any error the function produces is CrossesOutOfRange
(in particular the internal assertion never fires). -/
theorem hole_count_error_kinds (req : PatternRequest) :
    (compute_pattern req = .error .invalidHoleCount ↔
      (req.holes % 2 = 1 ∨ req.holes < 20)) ∧
    (req.holes % 2 = 0 → 20 ≤ req.holes →
      ∀ e : ErrKind, compute_pattern req = .error e → e = .crossesOutOfRange) := by
  by_cases hg : req.holes < 20 ∨ req.holes % 2 ≠ 0
  · constructor
    · have hc : compute_pattern req = .error .invalidHoleCount := by
        unfold compute_pattern
        rw [if_pos hg]
      rw [hc]
      constructor
      · intro _
        omega
      · intro _
        rfl
    · intro he h20 e _
      exfalso
      omega
  · have hcases : compute_pattern req = .error .crossesOutOfRange ∨
        compute_pattern req = .ok (buildResponse req) := by
      unfold compute_pattern
      rw [if_neg hg]
      cases hv : validate_crosses req.holes req.crosses with
      | error e =>
        left
        show Except.error e = Except.error ErrKind.crossesOutOfRange
        rw [validate_error_kind hv]
      | ok u =>
        cases u
        show (if req.holes = 32 ∧
            rimCheckFails ((buildResponse req).rows.map PatternRow.rimHole) req.holes
            then Except.error ErrKind.internalAssertion
            else Except.ok (buildResponse req)) = Except.error ErrKind.crossesOutOfRange ∨ _
        split
        · rename_i hcond
          obtain ⟨h32, hfail⟩ := hcond
          exfalso
          have hperm := @build_rims_perm req (by omega) (by omega) hv (by omega)
          rw [rimCheck_ok_of_perm hperm] at hfail
          exact absurd hfail (by simp)
        · right
          rfl
    constructor
    · rcases hcases with hc | hc <;> rw [hc]
      · constructor
        · intro habs
          simp at habs
        · intro hrhs
          exfalso
          omega
      · constructor
        · intro habs
          simp at habs
        · intro hrhs
          exfalso
          omega
    · intro he h20 e hcompute
      rcases hcases with hc | hc
      · rw [hc] at hcompute
        exact (Except.error.inj hcompute).symm
      · rw [hc] at hcompute
        exact absurd hcompute (by simp)

/-- The request used to witness the odd-holes branch of claim C8. -/
def reqC8a : PatternRequest :=
  { holes := 21, wheelType := "rear", crosses := 1, symmetry := "symmetrical",
    invertHeads := false, startRimHole := 1, valveReference := "left_of_valve",
    startHubHoleDS := 1, startHubHoleNDS := 1 }

/-- The request used to witness the crosses-error branch of claim C8. -/
def reqC8b : PatternRequest :=
  { holes := 24, wheelType := "rear", crosses := 9, symmetry := "symmetrical",
    invertHeads := false, startRimHole := 1, valveReference := "left_of_valve",
    startHubHoleDS := 1, startHubHoleNDS := 1 }

/-- Witness for claim C8: 21 holes yields InvalidHoleCount through the
theorem's equivalence, and for 24 holes with 9 crosses the theorem
forces the observed error to be CrossesOutOfRange. -/
theorem hole_count_error_kinds_witness :
    compute_pattern reqC8a = .error .invalidHoleCount ∧
      ErrKind.crossesOutOfRange = .crossesOutOfRange :=
  ⟨(hole_count_error_kinds reqC8a).1.mpr (by decide),
    ((hole_count_error_kinds reqC8b).2 (by decide) (by decide)
      ErrKind.crossesOutOfRange rfl).symm⟩

/-- Claim C10: two requests that differ only in the hub start offsets
produce row lists that agree on every field except spoke and hubHole
(captured by the rowCore projection), and agree on the derived
metadata; rim hole assignment is independent of the hub start offsets. -/
theorem hub_offsets_frame (req : PatternRequest) (a b : Int)
    {resp1 resp2 : PatternResponse}
    (h1 : compute_pattern req = .ok resp1)
    (h2 : compute_pattern
      { req with startHubHoleDS := a, startHubHoleNDS := b } = .ok resp2) :
    resp1.rows.map rowCore = resp2.rows.map rowCore ∧
      resp1.derived = resp2.derived := by
  obtain ⟨_, _, _, e1⟩ := compute_ok_inv h1
  obtain ⟨_, _, _, e2⟩ := compute_ok_inv h2
  subst e1
  subst e2
  have ecore : ∀ r : PatternRequest, (buildResponse r).rows.map rowCore =
      (allSpecs r.crosses (derive_H r.holes)).enum.map
        (fun p => rowCore (makeRow r r.holes (derive_H r.holes)
          (effective_start_rim_hole r) p.2.1 p.2.2.1 p.2.2.2.1 p.2.2.2.2
          ((p.1 : Int) + 1))) := by
    intro r
    show ((allSpecs r.crosses (derive_H r.holes)).enum.map
        (fun p => makeRow r r.holes (derive_H r.holes) (effective_start_rim_hole r)
          p.2.1 p.2.2.1 p.2.2.2.1 p.2.2.2.2 ((p.1 : Int) + 1))).map rowCore =
      (allSpecs r.crosses (derive_H r.holes)).enum.map
        (fun p => rowCore (makeRow r r.holes (derive_H r.holes)
          (effective_start_rim_hole r) p.2.1 p.2.2.1 p.2.2.2.1 p.2.2.2.2
          ((p.1 : Int) + 1)))
    rw [List.map_map]
    rfl
  constructor
  · rw [ecore req, ecore { req with startHubHoleDS := a, startHubHoleNDS := b }]
    exact List.map_congr_left (fun p _ => rfl)
  · rfl

/-- Witness for the amended claim C6 at 24 holes and crosses 2. -/
theorem common_crosses_consistent_witness :
    ((2 : Int) ∈ common_crosses 24 ↔ validate_crosses 24 2 = .ok ()) ∧
      common_crosses 24 =
        (List.range (common_crosses 24).length).map (fun (j : Nat) => (j : Int)) :=
  common_crosses_consistent 24 2 (by decide) (by decide)

/-- The request used to witness claim C10: 28 holes, 2 crosses. -/
def reqC10 : PatternRequest :=
  { holes := 28, wheelType := "rear", crosses := 2, symmetry := "symmetrical",
    invertHeads := false, startRimHole := 2, valveReference := "right_of_valve",
    startHubHoleDS := 1, startHubHoleNDS := 1 }

/-- Witness for claim C10: rotating both hub start offsets leaves every
field except spoke and hubHole unchanged, as does the derived record. -/
theorem hub_offsets_frame_witness :
    (buildResponse reqC10).rows.map rowCore =
      (buildResponse
        { reqC10 with startHubHoleDS := 6, startHubHoleNDS := 11 }).rows.map rowCore ∧
    (buildResponse reqC10).derived =
      (buildResponse
        { reqC10 with startHubHoleDS := 6, startHubHoleNDS := 11 }).derived :=
  @hub_offsets_frame reqC10 6 11 (buildResponse reqC10)
    (buildResponse { reqC10 with startHubHoleDS := 6, startHubHoleNDS := 11 }) rfl rfl
